import Mathlib

/-!
Verification of the in-process latency-emulating transport (`IPCPeer`) of the
bdls consensus library, file `ipc_peer.go`, against its natural-language
specification.

The transport is shallowly embedded as a record of its mutable fields.  All
Go `int64` / `time.Duration` arithmetic is modelled on `Int` with explicit
two's-complement wrapping (`wrap64`), since Go signed integer arithmetic
wraps.  Every mutation in the Go source runs under the peer's single mutex,
so each delivery task, tick and close is one atomic step here; a run of the
system is a list of such steps folded over the state.  The float64 delay
formula is modelled over `ℚ`, with the Go float-to-Duration conversion
modelled as truncation toward zero.
-/

namespace Bdls

/-- Upper bound of Go `int64` (`math.MaxInt64`), used by `NewIPCPeer` as the
initial `minLatency` sentinel. -/
def int64Max : Int := 9223372036854775807

/-- Lower bound of Go `int64`. -/
def int64Min : Int := -9223372036854775808

/-- Whether an integer is representable as a Go `int64`. -/
abbrev inRange64 (x : Int) : Prop := int64Min ≤ x ∧ x ≤ int64Max

/-- Two's-complement wrap of an integer into the `int64` range, modelling Go's
wrapping signed 64-bit addition. -/
def wrap64 (x : Int) : Int :=
  (x + 9223372036854775808) % 18446744073709551616 - 9223372036854775808

/-- Opaque stand-in for a Go `error` value returned by the bound consensus
engine (`Consensus.ReceiveMessage` / `Consensus.Update`).  The transport never
inspects these values, so only their identity matters; the repository's error
catalog (`errors.go`) is pure data consumed by the engine. -/
structure EngineError where
  code : Nat
deriving DecidableEq

/-- A message payload, Go `[]byte`. -/
abbrev Msg := List (Fin 256)

/-- The mutable state of one `IPCPeer` (ipc_peer.go lines 56-67).  `dieClosed`
models whether the `die` channel has been closed; `dieOnceDone` models whether
`dieOnce sync.Once` has fired.  All duration fields are nanosecond counts. -/
structure IPCPeer where
  latency : Int
  dieClosed : Bool
  dieOnceDone : Bool
  msgCount : Int
  bytesCount : Int
  minLatency : Int
  maxLatency : Int
  totalLatency : Int
deriving DecidableEq

/-- Constructor `NewIPCPeer` (lines 71-78): all counters start at the Go zero
value, `minLatency` starts at `math.MaxInt64`, the `die` channel is open. -/
def NewIPCPeer (latency : Int) : IPCPeer :=
  { latency := latency
    dieClosed := false
    dieOnceDone := false
    msgCount := 0
    bytesCount := 0
    minLatency := int64Max
    maxLatency := 0
    totalLatency := 0 }

/-- Accessor `GetMessageCount` (lines 87-91): a lock-guarded snapshot read. -/
def GetMessageCount (p : IPCPeer) : Int := p.msgCount

/-- Accessor `GetBytesCount` (lines 94-98): a lock-guarded snapshot read. -/
def GetBytesCount (p : IPCPeer) : Int := p.bytesCount

/-- Accessor `GetLatencies` (lines 115-119): returns the
(minimum, maximum, total) latency triple under the lock. -/
def GetLatencies (p : IPCPeer) : Int × Int × Int :=
  (p.minLatency, p.maxLatency, p.totalLatency)

/-- Truncation of a rational toward zero, modelling Go's float-to-integer
conversion `time.Duration(f)`, which discards the fractional part. -/
def ratTrunc (q : ℚ) : Int :=
  if 0 ≤ q then ⌊q⌋ else -⌊-q⌋

/-- The delay generator `IPCPeer.delay` (lines 150-152):
`time.Duration(0.1*rand.NormFloat64()*float64(p.latency)) + p.latency`.
The standard-normal sample is the parameter `z`; the float product is modelled
exactly over `ℚ`, the conversion to `time.Duration` truncates toward zero, and
the final `int64` addition wraps. -/
def delayOf (latency : Int) (z : ℚ) : Int :=
  wrap64 (ratTrunc (1 / 10 * z * (latency : ℚ)) + latency)

/-- The statistics-updating prefix of the delivery closure `txDelay` inside
`Send` (lines 124-137): under the lock, lower `minLatency`, raise
`maxLatency`, and accumulate `totalLatency`, `msgCount`, `bytesCount` with
wrapping `int64` arithmetic. -/
def txDelay (delay : Int) (msg : Msg) (p : IPCPeer) : IPCPeer :=
  let p1 := if p.minLatency > delay then { p with minLatency := delay } else p
  let p2 := if p1.maxLatency < delay then { p1 with maxLatency := delay } else p1
  { p2 with
    totalLatency := wrap64 (p2.totalLatency + delay)
    msgCount := wrap64 (p2.msgCount + 1)
    bytesCount := wrap64 (p2.bytesCount + (msg.length : Int)) }

/-- Record of the single `p.c.ReceiveMessage(msg, time.Now())` call made by the
delivery closure (line 139): the payload handed over and the peer state
visible under the lock at the moment of the call. -/
structure ReceiveCall where
  msg : Msg
  peerAtCall : IPCPeer
deriving DecidableEq

/-- The full delivery closure `txDelay` (lines 124-143): update the statistics,
then invoke the engine's receipt entry point; `recvErr` is whatever error the
engine returns.  The `if err != nil` block in the source is empty (its logging
is commented out), so the returned peer state is the same in both branches and
no error is ever handed back to the sender (third component). -/
def txDelayRun (delay : Int) (msg : Msg) (recvErr : Option EngineError)
    (p : IPCPeer) : IPCPeer × ReceiveCall × Option EngineError :=
  let p1 := txDelay delay msg p
  let call : ReceiveCall := { msg := msg, peerAtCall := p1 }
  if recvErr.isSome then (p1, call, none) else (p1, call, none)

/-- A callback handed to the scheduler collaborator
`timer.SystemTimedSched.Put`. -/
inductive ScheduledTask where
  | updateTick : ScheduledTask
  | delivery (delay : Int) (msg : Msg) : ScheduledTask
deriving DecidableEq

/-- One millisecond in nanoseconds (`time.Millisecond`). -/
def millisecond : Int := 1000000

/-- `IPCPeer.Update` (lines 155-166): under the lock, check the `die` channel
without blocking; if closed do nothing, otherwise call the engine's
`Update(time.Now())` discarding its error and re-submit the tick at
`now + 20ms`.  Returns the (unchanged) peer state, the number of engine
update calls made, and the list of tasks submitted to the scheduler. -/
def Update (now : Int) (updErr : Option EngineError) (p : IPCPeer) :
    IPCPeer × Nat × List (ScheduledTask × Int) :=
  if p.dieClosed then
    (p, 0, [])
  else
    (p, 1, [(ScheduledTask.updateTick, now + 20 * millisecond)])

/-- `IPCPeer.Send` (lines 122-147): sample a delay with standard-normal draw
`z`, submit the delivery closure at fire time `now + delay`, and return `nil`
to the caller.  The peer state is untouched at submission time.  Returns the
error handed to the caller and the submitted tasks. -/
def Send (now : Int) (z : ℚ) (msg : Msg) (p : IPCPeer) :
    Option EngineError × List (ScheduledTask × Int) :=
  let delay := delayOf p.latency z
  (none, [(ScheduledTask.delivery delay msg, now + delay)])

/-- `IPCPeer.Close` (lines 169-173): `dieOnce.Do(close(die))`.  Returns the
new state and whether this call actually closed the channel (`sync.Once` runs
the body only for the first caller). -/
def Close (p : IPCPeer) : IPCPeer × Bool :=
  if p.dieOnceDone then (p, false)
  else ({ p with dieOnceDone := true, dieClosed := true }, true)

/-- One atomic step of the transport: a `Send` submission, the firing of a
delivery closure (with the engine's receipt verdict), the firing of an
`Update` tick (with the engine's update verdict), or a `Close` call.  Every
such step runs under the peer's mutex in the source, so runs of the system
are sequences of these steps. -/
inductive Op where
  | send (now : Int) (z : ℚ) (msg : Msg) : Op
  | deliver (delay : Int) (msg : Msg) (recvErr : Option EngineError) : Op
  | update (now : Int) (updErr : Option EngineError) : Op
  | close : Op
deriving DecidableEq

/-- State transition of one step.  `Send` and `Update` do not mutate the
transport state; a delivery runs `txDelay`; `Close` runs the once-guarded
channel close. -/
def step (p : IPCPeer) : Op → IPCPeer
  | Op.send _ _ _ => p
  | Op.deliver d m e => (txDelayRun d m e p).1
  | Op.update now e => (Update now e p).1
  | Op.close => (Close p).1

/-- Fold a sequence of steps over a starting state. -/
def steps (p : IPCPeer) (ops : List Op) : IPCPeer :=
  ops.foldl step p

/-- The delays of the delivery steps of a run, in order. -/
def deliveredDelays : List Op → List Int
  | [] => []
  | Op.deliver d _ _ :: ops => d :: deliveredDelays ops
  | _ :: ops => deliveredDelays ops

/-- The payload lengths of the delivery steps of a run, in order. -/
def deliveredLens : List Op → List Int
  | [] => []
  | Op.deliver _ m _ :: ops => (m.length : Int) :: deliveredLens ops
  | _ :: ops => deliveredLens ops

/-- Whether a step is the firing of a delivery closure. -/
def isDeliver : Op → Bool
  | Op.deliver _ _ _ => true
  | _ => false

/-- Whether the three accumulating statistics updates of one delivery stay in
`int64` range from state `p` (no wrap-around). -/
def deliveryFits (p : IPCPeer) (delay : Int) (len : Nat) : Bool :=
  decide (inRange64 (p.totalLatency + delay)) &&
  decide (inRange64 (p.msgCount + 1)) &&
  decide (inRange64 (p.bytesCount + (len : Int)))

/-- Whether one step avoids `int64` wrap-around from state `p`. -/
def opFits (p : IPCPeer) : Op → Bool
  | Op.deliver d m _ => deliveryFits p d m.length
  | _ => true

/-- Whether a whole run avoids `int64` wrap-around at every step. -/
def noOverflowRun (p : IPCPeer) : List Op → Bool
  | [] => true
  | op :: ops => opFits p op && noOverflowRun (step p op) ops

/-- Run `n` successive `Close` calls, counting how many of them actually
closed the `die` channel. -/
def closeRun (p : IPCPeer) : Nat → IPCPeer × Nat
  | 0 => (p, 0)
  | n + 1 =>
    let r := Close p
    let rest := closeRun r.1 n
    (rest.1, (if r.2 then 1 else 0) + rest.2)

/-! ## Basic lemmas about the embedding -/

theorem wrap64_eq_of_inRange {x : Int} (h : inRange64 x) : wrap64 x = x := by
  obtain ⟨h1, h2⟩ := h
  unfold int64Min at h1
  unfold int64Max at h2
  unfold wrap64
  omega

theorem steps_nil (p : IPCPeer) : steps p [] = p := rfl

theorem steps_cons (p : IPCPeer) (op : Op) (ops : List Op) :
    steps p (op :: ops) = steps (step p op) ops := rfl

theorem txDelay_msgCount (d : Int) (m : Msg) (p : IPCPeer) :
    (txDelay d m p).msgCount = wrap64 (p.msgCount + 1) := by
  simp only [txDelay]
  split_ifs <;> rfl

theorem txDelay_bytesCount (d : Int) (m : Msg) (p : IPCPeer) :
    (txDelay d m p).bytesCount = wrap64 (p.bytesCount + (m.length : Int)) := by
  simp only [txDelay]
  split_ifs <;> rfl

theorem txDelay_totalLatency (d : Int) (m : Msg) (p : IPCPeer) :
    (txDelay d m p).totalLatency = wrap64 (p.totalLatency + d) := by
  simp only [txDelay]
  split_ifs <;> rfl

theorem txDelay_minLatency (d : Int) (m : Msg) (p : IPCPeer) :
    (txDelay d m p).minLatency = if p.minLatency > d then d else p.minLatency := by
  simp only [txDelay]
  split_ifs <;> rfl

theorem txDelay_maxLatency (d : Int) (m : Msg) (p : IPCPeer) :
    (txDelay d m p).maxLatency = if p.maxLatency < d then d else p.maxLatency := by
  simp only [txDelay]
  split_ifs <;> rfl

theorem txDelay_dieClosed (d : Int) (m : Msg) (p : IPCPeer) :
    (txDelay d m p).dieClosed = p.dieClosed := by
  simp only [txDelay]
  split_ifs <;> rfl

theorem txDelayRun_fst (d : Int) (m : Msg) (e : Option EngineError) (p : IPCPeer) :
    (txDelayRun d m e p).1 = txDelay d m p := by
  unfold txDelayRun
  split <;> rfl

theorem txDelayRun_call (d : Int) (m : Msg) (e : Option EngineError) (p : IPCPeer) :
    (txDelayRun d m e p).2.1 = { msg := m, peerAtCall := txDelay d m p } := by
  unfold txDelayRun
  split <;> rfl

theorem txDelayRun_err (d : Int) (m : Msg) (e : Option EngineError) (p : IPCPeer) :
    (txDelayRun d m e p).2.2 = none := by
  unfold txDelayRun
  split <;> rfl

theorem update_fst (now : Int) (e : Option EngineError) (p : IPCPeer) :
    (Update now e p).1 = p := by
  unfold Update
  split <;> rfl

theorem close_fst_minLatency (p : IPCPeer) : (Close p).1.minLatency = p.minLatency := by
  unfold Close
  split <;> rfl

theorem close_fst_maxLatency (p : IPCPeer) : (Close p).1.maxLatency = p.maxLatency := by
  unfold Close
  split <;> rfl

theorem step_minLatency_le (p : IPCPeer) (op : Op) :
    (step p op).minLatency ≤ p.minLatency := by
  cases op with
  | send now z m => exact le_refl _
  | deliver d m e =>
    rw [step, txDelayRun_fst, txDelay_minLatency]
    split <;> omega
  | update now e => rw [step, update_fst]
  | close => rw [step, close_fst_minLatency]

theorem step_maxLatency_ge (p : IPCPeer) (op : Op) :
    p.maxLatency ≤ (step p op).maxLatency := by
  cases op with
  | send now z m => exact le_refl _
  | deliver d m e =>
    rw [step, txDelayRun_fst, txDelay_maxLatency]
    split <;> omega
  | update now e => rw [step, update_fst]
  | close => rw [step, close_fst_maxLatency]

theorem steps_minLatency_le (p : IPCPeer) (ops : List Op) :
    (steps p ops).minLatency ≤ p.minLatency := by
  induction ops generalizing p with
  | nil => exact le_refl _
  | cons op ops ih =>
    rw [steps_cons]
    exact le_trans (ih (step p op)) (step_minLatency_le p op)

theorem steps_maxLatency_ge (p : IPCPeer) (ops : List Op) :
    p.maxLatency ≤ (steps p ops).maxLatency := by
  induction ops generalizing p with
  | nil => exact le_refl _
  | cons op ops ih =>
    rw [steps_cons]
    exact le_trans (step_maxLatency_ge p op) (ih (step p op))

theorem deliveredDelays_send (now : Int) (z : ℚ) (m : Msg) (ops : List Op) :
    deliveredDelays (Op.send now z m :: ops) = deliveredDelays ops := rfl

theorem deliveredDelays_update (now : Int) (e : Option EngineError) (ops : List Op) :
    deliveredDelays (Op.update now e :: ops) = deliveredDelays ops := rfl

theorem deliveredDelays_close (ops : List Op) :
    deliveredDelays (Op.close :: ops) = deliveredDelays ops := rfl

theorem deliveredDelays_deliver (d : Int) (m : Msg) (e : Option EngineError)
    (ops : List Op) :
    deliveredDelays (Op.deliver d m e :: ops) = d :: deliveredDelays ops := rfl

theorem steps_delay_bounds (p : IPCPeer) (ops : List Op) (d : Int)
    (hd : d ∈ deliveredDelays ops) :
    (steps p ops).minLatency ≤ d ∧ d ≤ (steps p ops).maxLatency := by
  induction ops generalizing p with
  | nil => simp [deliveredDelays] at hd
  | cons op ops ih =>
    cases op with
    | send now z m =>
      rw [deliveredDelays_send] at hd
      exact ih (step p (Op.send now z m)) hd
    | update now e =>
      rw [deliveredDelays_update] at hd
      exact ih (step p (Op.update now e)) hd
    | close =>
      rw [deliveredDelays_close] at hd
      exact ih (step p Op.close) hd
    | deliver d0 m0 e0 =>
      rw [deliveredDelays_deliver] at hd
      rcases List.mem_cons.1 hd with h | h
      · subst h
        rw [steps_cons]
        constructor
        · refine le_trans (steps_minLatency_le (step p (Op.deliver d m0 e0)) ops) ?_
          rw [step, txDelayRun_fst, txDelay_minLatency]
          split <;> omega
        · refine le_trans ?_ (steps_maxLatency_ge (step p (Op.deliver d m0 e0)) ops)
          rw [step, txDelayRun_fst, txDelay_maxLatency]
          split <;> omega
      · exact ih (step p (Op.deliver d0 m0 e0)) h

theorem step_send_eq (p : IPCPeer) (now : Int) (z : ℚ) (m : Msg) :
    step p (Op.send now z m) = p := rfl

theorem step_update_eq (p : IPCPeer) (now : Int) (e : Option EngineError) :
    step p (Op.update now e) = p := update_fst now e p

theorem step_deliver_eq (p : IPCPeer) (d : Int) (m : Msg) (e : Option EngineError) :
    step p (Op.deliver d m e) = txDelay d m p := txDelayRun_fst d m e p

theorem close_fst_msgCount (p : IPCPeer) : (Close p).1.msgCount = p.msgCount := by
  unfold Close
  split <;> rfl

theorem close_fst_bytesCount (p : IPCPeer) : (Close p).1.bytesCount = p.bytesCount := by
  unfold Close
  split <;> rfl

theorem close_fst_totalLatency (p : IPCPeer) :
    (Close p).1.totalLatency = p.totalLatency := by
  unfold Close
  split <;> rfl

theorem deliveredLens_send (now : Int) (z : ℚ) (m : Msg) (ops : List Op) :
    deliveredLens (Op.send now z m :: ops) = deliveredLens ops := rfl

theorem deliveredLens_update (now : Int) (e : Option EngineError) (ops : List Op) :
    deliveredLens (Op.update now e :: ops) = deliveredLens ops := rfl

theorem deliveredLens_close (ops : List Op) :
    deliveredLens (Op.close :: ops) = deliveredLens ops := rfl

theorem deliveredLens_deliver (d : Int) (m : Msg) (e : Option EngineError)
    (ops : List Op) :
    deliveredLens (Op.deliver d m e :: ops) = (m.length : Int) :: deliveredLens ops := rfl

theorem noOverflowRun_cons (p : IPCPeer) (op : Op) (ops : List Op) :
    noOverflowRun p (op :: ops) = (opFits p op && noOverflowRun (step p op) ops) := rfl

theorem deliveryFits_spec (p : IPCPeer) (d : Int) (len : Nat)
    (h : deliveryFits p d len = true) :
    inRange64 (p.totalLatency + d) ∧ inRange64 (p.msgCount + 1) ∧
    inRange64 (p.bytesCount + (len : Int)) := by
  unfold deliveryFits at h
  rw [Bool.and_eq_true, Bool.and_eq_true] at h
  obtain ⟨⟨h1, h2⟩, h3⟩ := h
  exact ⟨of_decide_eq_true h1, of_decide_eq_true h2, of_decide_eq_true h3⟩

/-- Exact accumulated statistics of a run in which no `int64` update wraps:
the message count is the number of deliveries, the byte count the sum of the
delivered payload lengths, the total latency the sum of the recorded delays. -/
theorem steps_stats (ops : List Op) (p : IPCPeer)
    (h : noOverflowRun p ops = true) :
    (steps p ops).msgCount = p.msgCount + (deliveredDelays ops).length ∧
    (steps p ops).bytesCount = p.bytesCount + (deliveredLens ops).sum ∧
    (steps p ops).totalLatency = p.totalLatency + (deliveredDelays ops).sum := by
  induction ops generalizing p with
  | nil => simp [steps_nil, deliveredDelays, deliveredLens]
  | cons op ops ih =>
    rw [noOverflowRun_cons, Bool.and_eq_true] at h
    obtain ⟨hop, hrest⟩ := h
    rw [steps_cons]
    cases op with
    | send now z m =>
      rw [step_send_eq, deliveredDelays_send, deliveredLens_send]
      exact ih p hrest
    | update now e =>
      rw [step_update_eq] at hrest ⊢
      rw [deliveredDelays_update, deliveredLens_update]
      exact ih p hrest
    | close =>
      obtain ⟨h1, h2, h3⟩ := ih (step p Op.close) hrest
      rw [deliveredDelays_close, deliveredLens_close]
      refine ⟨?_, ?_, ?_⟩
      · rw [h1, step, close_fst_msgCount]
      · rw [h2, step, close_fst_bytesCount]
      · rw [h3, step, close_fst_totalLatency]
    | deliver d m e =>
      unfold opFits at hop
      obtain ⟨ht, hc, hb⟩ := deliveryFits_spec p d m.length hop
      obtain ⟨h1, h2, h3⟩ := ih (step p (Op.deliver d m e)) hrest
      rw [step_deliver_eq] at h1 h2 h3
      rw [deliveredDelays_deliver, deliveredLens_deliver, step_deliver_eq]
      refine ⟨?_, ?_, ?_⟩
      · rw [h1, txDelay_msgCount, wrap64_eq_of_inRange hc, List.length_cons]
        push_cast
        ring
      · rw [h2, txDelay_bytesCount, wrap64_eq_of_inRange hb]
        rw [List.sum_cons]
        ring
      · rw [h3, txDelay_totalLatency, wrap64_eq_of_inRange ht]
        rw [List.sum_cons]
        ring

/-- Counters never decrease in a single step whose updates stay in `int64`
range. -/
theorem step_counters_mono (p : IPCPeer) (op : Op) (h : opFits p op = true) :
    p.msgCount ≤ (step p op).msgCount ∧ p.bytesCount ≤ (step p op).bytesCount := by
  cases op with
  | send now z m => exact ⟨le_refl _, le_refl _⟩
  | update now e => rw [step_update_eq]; exact ⟨le_refl _, le_refl _⟩
  | close => rw [step, close_fst_msgCount, close_fst_bytesCount]; exact ⟨le_refl _, le_refl _⟩
  | deliver d m e =>
    unfold opFits at h
    obtain ⟨_, hc, hb⟩ := deliveryFits_spec p d m.length h
    rw [step_deliver_eq, txDelay_msgCount, txDelay_bytesCount,
      wrap64_eq_of_inRange hc, wrap64_eq_of_inRange hb]
    constructor
    · omega
    · have : (0 : Int) ≤ (m.length : Int) := Int.natCast_nonneg _
      omega

/-! ## Claim theorems -/

/-- C1 counterexample: the claim that after any sequence of deliveries the
cumulative latency equals the sum of all recorded delays fails on the code,
because `p.totalLatency += delay` is wrapping `int64` arithmetic.  Two
deliveries with sampled delay `2^62` give `totalLatency = -2^63`, not the sum
`2^63`. -/
theorem delivery_stats_counterexample :
    ¬ ((steps (NewIPCPeer 0)
          [Op.deliver 4611686018427387904 [] none,
           Op.deliver 4611686018427387904 [] none]).totalLatency =
        (deliveredDelays
          [Op.deliver 4611686018427387904 [] none,
           Op.deliver 4611686018427387904 [] none]).sum) := by
  decide

/-- C1 (amended): for every delivery whose three statistics updates stay in
`int64` range, the delivery task increases `msgCount` by exactly 1,
`bytesCount` by exactly the payload length and `totalLatency` by exactly the
sampled delay; consequently, after any run from a fresh transport in which no
`int64` update wraps, the cumulative latency equals the sum of all recorded
delays (and the counters equal the number of deliveries and the summed
payload lengths). -/
theorem delivery_stats_amended :
    (∀ (p : IPCPeer) (d : Int) (m : Msg) (e : Option EngineError),
        deliveryFits p d m.length = true →
        (txDelayRun d m e p).1.msgCount = p.msgCount + 1 ∧
        (txDelayRun d m e p).1.bytesCount = p.bytesCount + (m.length : Int) ∧
        (txDelayRun d m e p).1.totalLatency = p.totalLatency + d) ∧
    (∀ (m0 : Int) (ops : List Op),
        noOverflowRun (NewIPCPeer m0) ops = true →
        (steps (NewIPCPeer m0) ops).msgCount = (deliveredDelays ops).length ∧
        (steps (NewIPCPeer m0) ops).bytesCount = (deliveredLens ops).sum ∧
        (steps (NewIPCPeer m0) ops).totalLatency = (deliveredDelays ops).sum) := by
  constructor
  · intro p d m e h
    obtain ⟨ht, hc, hb⟩ := deliveryFits_spec p d m.length h
    rw [txDelayRun_fst, txDelay_msgCount, txDelay_bytesCount, txDelay_totalLatency,
      wrap64_eq_of_inRange hc, wrap64_eq_of_inRange hb, wrap64_eq_of_inRange ht]
    exact ⟨rfl, rfl, rfl⟩
  · intro m0 ops h
    obtain ⟨h1, h2, h3⟩ := steps_stats ops (NewIPCPeer m0) h
    rw [h1, h2, h3]
    unfold NewIPCPeer
    refine ⟨?_, ?_, ?_⟩ <;> ring

/-- Witness for C1 (amended) at a delivery of a 2-byte payload with delay 7
onto a fresh transport, and at a concrete 3-step run. -/
theorem delivery_stats_amended_witness :
    ((txDelayRun 7 [0, 1] (some ⟨3⟩) (NewIPCPeer 5)).1.msgCount =
        (NewIPCPeer 5).msgCount + 1 ∧
      (txDelayRun 7 [0, 1] (some ⟨3⟩) (NewIPCPeer 5)).1.bytesCount =
        (NewIPCPeer 5).bytesCount + (([0, 1] : Msg).length : Int) ∧
      (txDelayRun 7 [0, 1] (some ⟨3⟩) (NewIPCPeer 5)).1.totalLatency =
        (NewIPCPeer 5).totalLatency + 7) ∧
    ((steps (NewIPCPeer 5)
        [Op.deliver 7 [0] none, Op.update 0 none, Op.deliver (-3) [] none]).msgCount =
      (deliveredDelays
        [Op.deliver 7 [0] none, Op.update 0 none, Op.deliver (-3) [] none]).length ∧
     (steps (NewIPCPeer 5)
        [Op.deliver 7 [0] none, Op.update 0 none, Op.deliver (-3) [] none]).bytesCount =
      (deliveredLens
        [Op.deliver 7 [0] none, Op.update 0 none, Op.deliver (-3) [] none]).sum ∧
     (steps (NewIPCPeer 5)
        [Op.deliver 7 [0] none, Op.update 0 none, Op.deliver (-3) [] none]).totalLatency =
      (deliveredDelays
        [Op.deliver 7 [0] none, Op.update 0 none, Op.deliver (-3) [] none]).sum) :=
  ⟨delivery_stats_amended.1 (NewIPCPeer 5) 7 [0, 1] (some ⟨3⟩) (by decide),
   delivery_stats_amended.2 5
     [Op.deliver 7 [0] none, Op.update 0 none, Op.deliver (-3) [] none] (by decide)⟩

/-- A payload of `2^62` bytes, used to exhibit `int64` wrap-around of the byte
counter. -/
def bigMsg : Msg := List.replicate 4611686018427387904 0

/-- C8 counterexample: the claim that no operation ever decreases the byte
counter fails on the code, because `p.bytesCount += int64(len(msg))` is
wrapping `int64` arithmetic: delivering a `2^62`-byte payload twice drops the
byte counter from `2^62` to `-2^63`. -/
theorem counters_monotone_counterexample :
    ¬ (GetBytesCount (steps (NewIPCPeer 0) [Op.deliver 0 bigMsg none]) ≤
       GetBytesCount (steps (NewIPCPeer 0)
          [Op.deliver 0 bigMsg none, Op.deliver 0 bigMsg none])) := by
  have hlen : (bigMsg.length : Int) = 4611686018427387904 := by
    rw [bigMsg, List.length_replicate]
    norm_num
  have e1 : GetBytesCount (steps (NewIPCPeer 0) [Op.deliver 0 bigMsg none]) =
      4611686018427387904 := by
    rw [steps_cons, steps_nil, step_deliver_eq]
    rw [GetBytesCount, txDelay_bytesCount, hlen]
    norm_num [NewIPCPeer, wrap64]
  have e2 : GetBytesCount (steps (NewIPCPeer 0)
      [Op.deliver 0 bigMsg none, Op.deliver 0 bigMsg none]) =
      -9223372036854775808 := by
    rw [steps_cons, steps_cons, steps_nil, step_deliver_eq, step_deliver_eq]
    rw [GetBytesCount, txDelay_bytesCount, txDelay_bytesCount, hlen]
    norm_num [NewIPCPeer, wrap64]
  intro hle
  rw [e1, e2] at hle
  norm_num at hle

/-- C8 (amended): across every run of the transport, no operation whose
`int64` statistics updates stay in range decreases the message counter or the
byte counter (and no reset operation exists in the interface). -/
theorem counters_monotone_amended (m0 : Int) (ops : List Op) (op : Op)
    (h : opFits (steps (NewIPCPeer m0) ops) op = true) :
    GetMessageCount (steps (NewIPCPeer m0) ops) ≤
      GetMessageCount (step (steps (NewIPCPeer m0) ops) op) ∧
    GetBytesCount (steps (NewIPCPeer m0) ops) ≤
      GetBytesCount (step (steps (NewIPCPeer m0) ops) op) :=
  step_counters_mono (steps (NewIPCPeer m0) ops) op h

/-- Witness for C8 (amended): a delivery of one byte with delay 5 after a
one-delivery run. -/
theorem counters_monotone_amended_witness :
    GetMessageCount (steps (NewIPCPeer 0) [Op.deliver 2 [7] none]) ≤
      GetMessageCount
        (step (steps (NewIPCPeer 0) [Op.deliver 2 [7] none]) (Op.deliver 5 [9] none)) ∧
    GetBytesCount (steps (NewIPCPeer 0) [Op.deliver 2 [7] none]) ≤
      GetBytesCount
        (step (steps (NewIPCPeer 0) [Op.deliver 2 [7] none]) (Op.deliver 5 [9] none)) :=
  counters_monotone_amended 0 [Op.deliver 2 [7] none] (Op.deliver 5 [9] none) (by decide)

/-- C2: after every delivery task of a run from a fresh transport has fired,
the recorded `minLatency` is at most every recorded delay and every recorded
delay is at most the recorded `maxLatency`, for arbitrary (possibly negative)
sampled delays and arbitrary interleaving with other operations. -/
theorem recorded_delays_bounded_by_extrema (m : Int) (ops : List Op) (d : Int)
    (hd : d ∈ deliveredDelays ops) :
    (steps (NewIPCPeer m) ops).minLatency ≤ d ∧
    d ≤ (steps (NewIPCPeer m) ops).maxLatency :=
  steps_delay_bounds (NewIPCPeer m) ops d hd

/-- Witness for C2 at a concrete run: two deliveries with delays 7 and -3
from a fresh transport with mean latency 50. -/
theorem recorded_delays_bounded_by_extrema_witness :
    (7 ∈ deliveredDelays [Op.deliver 7 [] none, Op.deliver (-3) [] none]) ∧
    (steps (NewIPCPeer 50) [Op.deliver 7 [] none, Op.deliver (-3) [] none]).minLatency ≤ 7 ∧
    7 ≤ (steps (NewIPCPeer 50) [Op.deliver 7 [] none, Op.deliver (-3) [] none]).maxLatency :=
  ⟨by decide,
   recorded_delays_bounded_by_extrema 50
     [Op.deliver 7 [] none, Op.deliver (-3) [] none] 7 (by decide)⟩

theorem close_dieClosed_mono (p : IPCPeer) (h : p.dieClosed = true) :
    (Close p).1.dieClosed = true := by
  unfold Close
  split
  · exact h
  · rfl

/-- C3: `Update` is a two-state machine.  On a transport whose `die` channel
is open, one invocation calls the engine's `Update` exactly once and submits
exactly one future tick at `now + 20ms`; on a closed transport it calls
nothing and submits nothing; and no step of the system ever reopens the
channel (running-to-closed is one-way). -/
theorem update_state_machine :
    (∀ (now : Int) (e : Option EngineError) (p : IPCPeer),
        p.dieClosed = false →
        Update now e p = (p, 1, [(ScheduledTask.updateTick, now + 20 * millisecond)])) ∧
    (∀ (now : Int) (e : Option EngineError) (p : IPCPeer),
        p.dieClosed = true → Update now e p = (p, 0, [])) ∧
    (∀ (p : IPCPeer) (op : Op), p.dieClosed = true → (step p op).dieClosed = true) := by
  refine ⟨?_, ?_, ?_⟩
  · intro now e p h
    simp [Update, h]
  · intro now e p h
    simp [Update, h]
  · intro p op h
    cases op with
    | send now z m => exact h
    | deliver d m e => rw [step_deliver_eq, txDelay_dieClosed]; exact h
    | update now e => rw [step_update_eq]; exact h
    | close => exact close_dieClosed_mono p h

/-- Witness for C3: one tick on a fresh transport, one tick and one further
step on a closed transport. -/
theorem update_state_machine_witness :
    Update 3 none (NewIPCPeer 7) =
      (NewIPCPeer 7, 1, [(ScheduledTask.updateTick, 3 + 20 * millisecond)]) ∧
    Update 3 none (Close (NewIPCPeer 7)).1 = ((Close (NewIPCPeer 7)).1, 0, []) ∧
    (step (Close (NewIPCPeer 7)).1 Op.close).dieClosed = true :=
  ⟨update_state_machine.1 3 none (NewIPCPeer 7) rfl,
   update_state_machine.2.1 3 none (Close (NewIPCPeer 7)).1 (by decide),
   update_state_machine.2.2 (Close (NewIPCPeer 7)).1 Op.close (by decide)⟩

theorem closeRun_of_done (p : IPCPeer) (h : p.dieOnceDone = true) :
    ∀ n, closeRun p n = (p, 0) := by
  intro n
  induction n with
  | zero => rfl
  | succ k ih =>
    have hc : Close p = (p, false) := by
      unfold Close
      rw [h]
      simp
    simp [closeRun, hc, ih]

/-- C5: `Close` is idempotent.  Any positive number of `Close` calls on a
fresh transport closes the `die` channel, and the channel is actually closed
exactly once (`sync.Once`: the first caller wins, every later call is a
no-op).  Each call is a total function: none returns an error.  Concurrent
calls reduce to this sequence because `sync.Once.Do` is atomic. -/
theorem close_idempotent (m : Int) (n : Nat) (h : 1 ≤ n) :
    (closeRun (NewIPCPeer m) n).1.dieClosed = true ∧
    (closeRun (NewIPCPeer m) n).2 = 1 := by
  obtain ⟨k, rfl⟩ : ∃ k, n = k + 1 := ⟨n - 1, by omega⟩
  have hclose : Close (NewIPCPeer m) =
      ({ NewIPCPeer m with dieOnceDone := true, dieClosed := true }, true) := by
    unfold Close NewIPCPeer
    simp
  have hdone :
      ({ NewIPCPeer m with dieOnceDone := true, dieClosed := true } : IPCPeer).dieOnceDone
        = true := rfl
  simp [closeRun, hclose, closeRun_of_done _ hdone]

/-- Witness for C5: three consecutive `Close` calls. -/
theorem close_idempotent_witness :
    (closeRun (NewIPCPeer 4) 3).1.dieClosed = true ∧
    (closeRun (NewIPCPeer 4) 3).2 = 1 :=
  close_idempotent 4 3 (by norm_num)

/-- C6: `Send` never fails.  For every payload, time, state and sampled draw,
`Send` returns `nil` to its caller, after submitting exactly the one delivery
task at fire time `now + delay`, whatever the sampled delay and whatever the
engine will later answer. -/
theorem send_never_fails (now : Int) (z : ℚ) (msg : Msg) (p : IPCPeer) :
    (Send now z msg p).1 = none ∧
    (Send now z msg p).2 =
      [(ScheduledTask.delivery (delayOf p.latency z) msg,
        now + delayOf p.latency z)] :=
  ⟨rfl, rfl⟩

/-- C7: every engine-side error is discarded at this layer.  The delivery
task returns no error to the sender and produces the same transport state and
engine call whatever `ReceiveMessage` answers; `Update` behaves identically
whatever the engine's time-driven update answers; and `Send` returns `nil`
to its caller. -/
theorem engine_errors_discarded :
    (∀ (d : Int) (msg : Msg) (e : Option EngineError) (p : IPCPeer),
        (txDelayRun d msg e p).2.2 = none ∧
        (txDelayRun d msg e p).1 = (txDelayRun d msg none p).1 ∧
        (txDelayRun d msg e p).2.1 = (txDelayRun d msg none p).2.1) ∧
    (∀ (now : Int) (e : Option EngineError) (p : IPCPeer),
        Update now e p = Update now none p) ∧
    (∀ (now : Int) (z : ℚ) (msg : Msg) (p : IPCPeer),
        (Send now z msg p).1 = none) := by
  refine ⟨?_, ?_, ?_⟩
  · intro d msg e p
    refine ⟨txDelayRun_err d msg e p, ?_, ?_⟩
    · rw [txDelayRun_fst, txDelayRun_fst]
    · rw [txDelayRun_call, txDelayRun_call]
  · intro now e p
    rfl
  · intro now z msg p
    rfl

theorem step_latencies_of_not_deliver (p : IPCPeer) (op : Op)
    (h : isDeliver op = false) :
    GetLatencies (step p op) = GetLatencies p := by
  cases op with
  | send now z m => rfl
  | deliver d m e => simp [isDeliver] at h
  | update now e => rw [step_update_eq]
  | close =>
    show GetLatencies (Close p).1 = GetLatencies p
    unfold GetLatencies
    rw [close_fst_minLatency, close_fst_maxLatency, close_fst_totalLatency]

theorem steps_latencies_of_no_deliver (p : IPCPeer) (ops : List Op)
    (h : ∀ op ∈ ops, isDeliver op = false) :
    GetLatencies (steps p ops) = GetLatencies p := by
  induction ops generalizing p with
  | nil => rfl
  | cons op ops ih =>
    rw [steps_cons, ih (step p op) (fun o ho => h o (List.mem_cons_of_mem op ho)),
      step_latencies_of_not_deliver p op (h op (List.mem_cons_self op ops))]

/-- C9: on a freshly constructed transport, before any delivery task has run,
`GetLatencies` returns the sentinel triple (minimum `2^63 - 1` nanoseconds,
maximum 0, total 0), so the returned minimum stays strictly greater than the
returned maximum over any run containing no delivery. -/
theorem fresh_latencies :
    (∀ m : Int, GetLatencies (NewIPCPeer m) = (2 ^ 63 - 1, 0, 0) ∧
        (GetLatencies (NewIPCPeer m)).1 > (GetLatencies (NewIPCPeer m)).2.1) ∧
    (∀ (m : Int) (ops : List Op), (∀ op ∈ ops, isDeliver op = false) →
        GetLatencies (steps (NewIPCPeer m) ops) = (2 ^ 63 - 1, 0, 0)) := by
  have hbase : ∀ m : Int, GetLatencies (NewIPCPeer m) = (2 ^ 63 - 1, 0, 0) := by
    intro m
    unfold GetLatencies NewIPCPeer int64Max
    norm_num
  refine ⟨fun m => ⟨hbase m, ?_⟩, fun m ops h => ?_⟩
  · rw [hbase m]
    norm_num
  · rw [steps_latencies_of_no_deliver _ _ h, hbase m]

/-- Witness for C9: a run of a tick, a close and a send submission leaves the
sentinel triple untouched. -/
theorem fresh_latencies_witness :
    GetLatencies (steps (NewIPCPeer 9) [Op.update 0 none, Op.close, Op.send 1 0 []]) =
      (2 ^ 63 - 1, 0, 0) :=
  fresh_latencies.2 9 [Op.update 0 none, Op.close, Op.send 1 0 []] (by decide)

/-- C10: the delivery task updates the counters and latency statistics before
invoking `ReceiveMessage`: the peer state visible to the engine at the moment
of the call already carries the incremented statistics, and a message the
engine rejects leaves exactly the same transport state and engine call as an
accepted one. -/
theorem stats_updated_before_receive (d : Int) (m : Msg)
    (e : Option EngineError) (p : IPCPeer)
    (h : deliveryFits p d m.length = true) :
    ((txDelayRun d m e p).2.1.peerAtCall.msgCount = p.msgCount + 1 ∧
     (txDelayRun d m e p).2.1.peerAtCall.bytesCount = p.bytesCount + (m.length : Int) ∧
     (txDelayRun d m e p).2.1.peerAtCall.totalLatency = p.totalLatency + d) ∧
    (txDelayRun d m e p).1 = (txDelayRun d m none p).1 ∧
    (txDelayRun d m e p).2.1 = (txDelayRun d m none p).2.1 := by
  obtain ⟨ht, hc, hb⟩ := deliveryFits_spec p d m.length h
  rw [txDelayRun_call, txDelayRun_call, txDelayRun_fst, txDelayRun_fst]
  refine ⟨⟨?_, ?_, ?_⟩, rfl, rfl⟩
  · show (txDelay d m p).msgCount = p.msgCount + 1
    rw [txDelay_msgCount, wrap64_eq_of_inRange hc]
  · show (txDelay d m p).bytesCount = p.bytesCount + (m.length : Int)
    rw [txDelay_bytesCount, wrap64_eq_of_inRange hb]
  · show (txDelay d m p).totalLatency = p.totalLatency + d
    rw [txDelay_totalLatency, wrap64_eq_of_inRange ht]

/-- Witness for C10: a rejected 1-byte delivery with delay 6 on a fresh
transport. -/
theorem stats_updated_before_receive_witness :
    ((txDelayRun 6 [2] (some ⟨1⟩) (NewIPCPeer 3)).2.1.peerAtCall.msgCount =
        (NewIPCPeer 3).msgCount + 1 ∧
     (txDelayRun 6 [2] (some ⟨1⟩) (NewIPCPeer 3)).2.1.peerAtCall.bytesCount =
        (NewIPCPeer 3).bytesCount + (([2] : Msg).length : Int) ∧
     (txDelayRun 6 [2] (some ⟨1⟩) (NewIPCPeer 3)).2.1.peerAtCall.totalLatency =
        (NewIPCPeer 3).totalLatency + 6) ∧
    (txDelayRun 6 [2] (some ⟨1⟩) (NewIPCPeer 3)).1 =
      (txDelayRun 6 [2] none (NewIPCPeer 3)).1 ∧
    (txDelayRun 6 [2] (some ⟨1⟩) (NewIPCPeer 3)).2.1 =
      (txDelayRun 6 [2] none (NewIPCPeer 3)).2.1 :=
  stats_updated_before_receive 6 [2] (some ⟨1⟩) (NewIPCPeer 3) (by decide)

theorem ratTrunc_error (q : ℚ) : |((ratTrunc q : Int) : ℚ) - q| < 1 := by
  unfold ratTrunc
  split
  · rw [abs_sub_lt_iff]
    have h1 := Int.floor_le q
    have h2 := Int.lt_floor_add_one q
    constructor <;> linarith
  · rw [abs_sub_lt_iff]
    have h1 := Int.floor_le (-q)
    have h2 := Int.lt_floor_add_one (-q)
    push_cast
    constructor <;> linarith

theorem ratTrunc_intCast (n : Int) : ratTrunc (n : ℚ) = n := by
  unfold ratTrunc
  split
  · exact Int.floor_intCast n
  · have : (-(n : ℚ)) = ((-n : Int) : ℚ) := by push_cast; ring
    rw [this, Int.floor_intCast]
    omega

/-- C4: the delay generator returns the duration `m + 0.1·m·Z` — exactly, up
to the sub-nanosecond truncation of the float-to-Duration conversion,
whenever the result fits in `int64` — and performs no clamping to
non-negative: for every positive mean `m` the sample `Z = -20` already yields
a negative delay. -/
theorem delay_formula :
    (∀ (m : Int) (z : ℚ), 0 ≤ m →
        inRange64 (ratTrunc (1 / 10 * z * (m : ℚ)) + m) →
        |((delayOf m z : Int) : ℚ) - ((m : ℚ) + 1 / 10 * (m : ℚ) * z)| < 1) ∧
    (∀ m : Int, 0 < m → m ≤ int64Max → delayOf m (-20) < 0) := by
  constructor
  · intro m z hm hin
    unfold delayOf
    rw [wrap64_eq_of_inRange hin]
    push_cast
    have heq :
        ((ratTrunc (1 / 10 * z * (m : ℚ)) : Int) : ℚ) + (m : ℚ) -
            ((m : ℚ) + 1 / 10 * (m : ℚ) * z) =
          ((ratTrunc (1 / 10 * z * (m : ℚ)) : Int) : ℚ) - 1 / 10 * z * (m : ℚ) := by
      ring
    rw [heq]
    exact ratTrunc_error (1 / 10 * z * (m : ℚ))
  · intro m h1 h2
    unfold delayOf
    have he : (1 / 10 : ℚ) * (-20) * (m : ℚ) = ((-2 * m : Int) : ℚ) := by
      push_cast
      ring
    rw [he, ratTrunc_intCast]
    have h3 : (-2 * m + m) = -m := by ring
    rw [h3]
    unfold int64Max at h2
    have hr : inRange64 (-m) := by
      show int64Min ≤ -m ∧ -m ≤ int64Max
      unfold int64Min int64Max
      omega
    rw [wrap64_eq_of_inRange hr]
    omega

/-- Witness for C4 at mean latency one second: with `Z = 0` the delay is
within a nanosecond of the mean, and with `Z = -20` it is negative. -/
theorem delay_formula_witness :
    |((delayOf 1000000000 0 : Int) : ℚ) -
        ((1000000000 : ℚ) + 1 / 10 * (1000000000 : ℚ) * 0)| < 1 ∧
    delayOf 1000000000 (-20) < 0 :=
  ⟨delay_formula.1 1000000000 0 (by norm_num)
     (by
       have h : (1 / 10 : ℚ) * 0 * ((1000000000 : Int) : ℚ) = ((0 : Int) : ℚ) := by
         push_cast
         ring
       rw [h, ratTrunc_intCast]
       show int64Min ≤ (0 : Int) + 1000000000 ∧ (0 : Int) + 1000000000 ≤ int64Max
       unfold int64Min int64Max
       norm_num),
   delay_formula.2 1000000000 (by norm_num) (by decide)⟩

end Bdls
